/-
Verification development for the rate-limited external-call orchestration
core of the portfolio-market repository: the hybrid rate limiter
(app/external_api/services/rate_limiter.py), the distributed lock
(app/services/api_management/queue_blocker.py) and the URL-length-aware
request chunker (app/external_api/api_services/coingecko/client.py; the
older copy in app/external_api/coingeko/client.py has the identical
chunking algorithm).

The Python code is shallowly embedded as executable Lean functions.  Redis
is modelled as a key/value map from strings to optional integers; datetimes
are modelled by their calendar fields together with their position on an
absolute microsecond timeline (which, for valid datetimes, agrees with
Python's field-wise comparison and subtraction of naive datetimes).
-/
import Mathlib

/-! ## Request chunker

`CoingeckoClient._generate_safe_chunks_to_get_prices` iterates over the id
list keeping `current_chunk` and `current_length`; the fixed URL portion in
the source is `len(url)` of `_get_url_for_chunks_to_get_prices()`, embedded
here as the parameter `prefixLen`, and `MAX_URL_LENGTH` as `maxLength`. -/

/-- The loop body of `_generate_safe_chunks_to_get_prices`, recursing over
the remaining ids with the accumulated `current_chunk` and
`current_length`.  A chunk is yielded only when non-empty (`if
current_chunk:`). -/
def chunksLoop (maxLength prefixLen : Nat) :
    List String → List String → Nat → List (List String)
  | [], currentChunk, _ =>
      if currentChunk = [] then [] else [currentChunk]
  | coinId :: rest, currentChunk, currentLength =>
      -- addition_length = len(coin_id) + 1 (comma); new_length = current + addition
      let newLength := currentLength + (coinId.length + 1)
      if newLength ≤ maxLength then
        chunksLoop maxLength prefixLen rest (currentChunk ++ [coinId]) newLength
      else
        (if currentChunk = [] then [] else [currentChunk]) ++
          chunksLoop maxLength prefixLen rest [coinId]
            (prefixLen + 1 + coinId.length)

/-- Embedding of `_generate_safe_chunks_to_get_prices(ids)`: the generator starts with
an empty chunk and `current_length = len(url)`. -/
def generateSafeChunks (ids : List String) (maxLength prefixLen : Nat) :
    List (List String) :=
  chunksLoop maxLength prefixLen ids [] prefixLen

/-- Rendered length contribution of a chunk: `sum(len(id) + 1 for id in chunk)`. -/
def chunkWeight (chunk : List String) : Nat :=
  (chunk.map (fun i => i.length + 1)).sum

theorem chunkWeight_nil : chunkWeight [] = 0 := rfl

theorem chunkWeight_append (a b : List String) :
    chunkWeight (a ++ b) = chunkWeight a + chunkWeight b := by
  simp [chunkWeight]

/-- Flattening the chunker's output recovers `current_chunk ++ remaining ids`. -/
theorem chunksLoop_join (maxLength prefixLen : Nat) :
    ∀ (ids currentChunk : List String) (currentLength : Nat),
      (chunksLoop maxLength prefixLen ids currentChunk currentLength).flatten =
        currentChunk ++ ids := by
  intro ids
  induction ids with
  | nil =>
      intro c len
      by_cases h : c = [] <;> simp [chunksLoop, h]
  | cons coinId rest ih =>
      intro c len
      simp only [chunksLoop]
      by_cases h : len + (coinId.length + 1) ≤ maxLength
      · simp only [if_pos h, ih]
        simp
      · simp only [if_neg h]
        by_cases hc : c = [] <;> simp [hc, ih]

/-- Every chunk the loop emits is non-empty. -/
theorem chunksLoop_ne_nil (maxLength prefixLen : Nat) :
    ∀ (ids currentChunk : List String) (currentLength : Nat),
      ∀ b ∈ chunksLoop maxLength prefixLen ids currentChunk currentLength,
        b ≠ [] := by
  intro ids
  induction ids with
  | nil =>
      intro c len b hb
      by_cases h : c = [] <;> simp [chunksLoop, h] at hb
      · exact hb ▸ h
  | cons coinId rest ih =>
      intro c len b hb
      simp only [chunksLoop] at hb
      by_cases h : len + (coinId.length + 1) ≤ maxLength
      · rw [if_pos h] at hb
        exact ih _ _ b hb
      · rw [if_neg h] at hb
        by_cases hc : c = []
        · simp only [hc, if_pos rfl, List.nil_append] at hb
          exact ih _ _ b hb
        · simp only [if_neg hc, List.mem_append] at hb
          rcases hb with hb | hb
          · simp only [List.mem_singleton] at hb
            exact hb ▸ hc
          · exact ih _ _ b hb

/-- Length invariant of the loop: provided the accumulator state is
coherent (`current_length` is the prefix length plus the weight of the
accumulated chunk, and the accumulated chunk is empty, within bounds, or a
lone oversized id), every emitted batch is within bounds or a lone
oversized id. -/
theorem chunksLoop_length_invariant (maxLength prefixLen : Nat) :
    ∀ (ids currentChunk : List String) (currentLength : Nat),
      currentLength = prefixLen + chunkWeight currentChunk →
      (currentChunk = [] ∨ currentLength ≤ maxLength ∨
        (∃ i, currentChunk = [i] ∧ maxLength < prefixLen + (i.length + 1))) →
      ∀ b ∈ chunksLoop maxLength prefixLen ids currentChunk currentLength,
        prefixLen + chunkWeight b ≤ maxLength ∨
          ∃ i, b = [i] ∧ maxLength < prefixLen + (i.length + 1) := by
  intro ids
  induction ids with
  | nil =>
      intro c len hlen hinv b hb
      by_cases h : c = [] <;> simp [chunksLoop, h] at hb
      subst hb
      rcases hinv with hinv | hinv | hinv
      · exact absurd hinv h
      · exact Or.inl (hlen ▸ hinv)
      · exact Or.inr hinv
  | cons coinId rest ih =>
      intro c len hlen hinv b hb
      simp only [chunksLoop] at hb
      by_cases h : len + (coinId.length + 1) ≤ maxLength
      · rw [if_pos h] at hb
        refine ih (c ++ [coinId]) _ ?_ ?_ b hb
        · simp [chunkWeight_append, hlen, chunkWeight]
          omega
        · exact Or.inr (Or.inl h)
      · rw [if_neg h] at hb
        by_cases hc : c = []
        · simp only [hc, if_pos rfl, List.nil_append] at hb
          refine ih [coinId] _ ?_ ?_ b hb
          · simp [chunkWeight]
            omega
          · by_cases hbig : prefixLen + 1 + coinId.length ≤ maxLength
            · exact Or.inr (Or.inl hbig)
            · exact Or.inr (Or.inr ⟨coinId, rfl, by omega⟩)
        · simp only [if_neg hc, List.mem_append] at hb
          rcases hb with hb | hb
          · simp only [List.mem_singleton] at hb
            subst hb
            rcases hinv with hinv | hinv | hinv
            · exact absurd hinv hc
            · exact Or.inl (hlen ▸ hinv)
            · exact Or.inr hinv
          · refine ih [coinId] _ ?_ ?_ b hb
            · simp [chunkWeight]
              omega
            · by_cases hbig : prefixLen + 1 + coinId.length ≤ maxLength
              · exact Or.inr (Or.inl hbig)
              · exact Or.inr (Or.inr ⟨coinId, rfl, by omega⟩)

/-! ## Distributed lock release

`QueueBlocker.release_lock` runs a Lua script atomically: if the stored
value at the lock key equals this holder's `owner_id`, delete the key and
return 1, else return 0; `released = (result == 1)`. -/

/-- The lock portion of Redis: lock key → stored owner token. -/
def LockStore := String → Option String

/-- Embedding of `QueueBlocker.release_lock`: atomic compare-and-delete, returning
`released` and the resulting store. -/
def releaseLock (store : LockStore) (lockKey ownerId : String) :
    Bool × LockStore :=
  if store lockKey = some ownerId then
    (true, fun q => if q = lockKey then none else store q)
  else
    (false, store)

/-! ## Rate limiter context manager

`RateLimiter.limit_context` raises `TimeoutError` when `acquire` fails;
otherwise it yields to the body and swallows any `Exception` the body
raises (`try: yield / except Exception: pass / finally: pass`).  With
`@contextmanager`, a generator that swallows the exception thrown in at
`yield` makes `__exit__` return true, suppressing the body's exception. -/

/-- Exceptions of Python's `Exception` class (the only ones an
`except Exception` clause catches). -/
inductive PyExc
  | timeoutError (msg : String)
  | other (msg : String)
deriving DecidableEq

/-- Embedding of `RateLimiter.limit_context`, as a function of the `acquire` outcome and
of the with-body's outcome (normal return or a raised `Exception`). -/
def limitContext (timeout : Int) (acquired : Bool)
    (body : Except PyExc Unit) : Except PyExc Unit :=
  if acquired = false then
    .error (.timeoutError s!"Таймаут rate limit после {timeout} секунд")
  else
    match body with
    | .ok u => .ok u
    | .error _ => .ok ()  -- except Exception: pass

/-! ## Durability sync

`RateLimiter._sync_to_db_async` reads the four window counters from Redis
into the dict `counts` (keys 'minute', 'hour', 'day', 'month') and hands it
to `_save_to_db`, which writes the five counter columns of the service row,
taking `counts.get('total', 0)` for `total_requests`. -/

/-- The counter portion of Redis: key → stored integer. -/
def Store := String → Option Int

/-- Embedding of `counts.get(k, d)` on the collected dict, modelled as an association list. -/
def countsGet (counts : List (String × Int)) (k : String) (d : Int) : Int :=
  match counts.find? (fun e => e.1 = k) with
  | some e => e.2
  | none => d

/-- The four time windows iterated by the limiter (`['minute', 'hour',
'day', 'month']`). -/
inductive Period
  | minute
  | hour
  | day
  | month
deriving DecidableEq

/-- The literal name of a period. -/
def Period.str : Period → String
  | .minute => "minute"
  | .hour => "hour"
  | .day => "day"
  | .month => "month"

/-- Embedding of `f'{self.redis_key_base}:{period}:count'`. -/
def countKey (base : String) (p : Period) : String :=
  base ++ (":" ++ p.str ++ ":count")

/-- Embedding of `f'{self.redis_key_base}:total:count'`. -/
def totalKey (base : String) : String :=
  base ++ ":total:count"

/-- Embedding of `int(count) if count else 0` after `self.redis.get(key)`. -/
def currentCount (s : Store) (base : String) (p : Period) : Int :=
  (s (countKey base p)).getD 0

/-- The `counts` dict built by `_sync_to_db_async` (insertion order
minute, hour, day, month). -/
def collectCounts (base : String) (s : Store) : List (String × Int) :=
  [("minute", currentCount s base .minute),
   ("hour", currentCount s base .hour),
   ("day", currentCount s base .day),
   ("month", currentCount s base .month)]

/-- The counter columns of the `ExternalApiService` row that
`_save_to_db` assigns. -/
structure DbCounters where
  minute_counter : Int
  hour_counter : Int
  day_counter : Int
  month_counter : Int
  total_requests : Int
deriving DecidableEq

/-- Embedding of `RateLimiter._save_to_db(counts)`: the five assignments to the locked
service row. -/
def saveToDb (counts : List (String × Int)) : DbCounters :=
  { minute_counter := countsGet counts "minute" 0
    hour_counter := countsGet counts "hour" 0
    day_counter := countsGet counts "day" 0
    month_counter := countsGet counts "month" 0
    total_requests := countsGet counts "total" 0 }

/-! ## Naive datetimes on a microsecond timeline

`datetime.now(timezone.utc).replace(tzinfo=None)` produces naive UTC
datetimes.  We embed a naive datetime by its calendar fields and map it to
an absolute microsecond timeline (proleptic Gregorian, epoch year 0); for
valid datetimes this timeline order coincides with Python's field-wise
datetime comparison, and timeline differences with `timedelta.total_seconds`
up to the fixed 10^6 μs/s factor. -/

/-- A naive Python `datetime`. -/
structure DateTime where
  year : Nat
  month : Nat
  day : Nat
  hour : Nat
  minute : Nat
  second : Nat
  microsecond : Nat
deriving DecidableEq

def usPerSecond : Nat := 1000000
def usPerMinute : Nat := 60000000
def usPerHour : Nat := 3600000000
def usPerDay : Nat := 86400000000

/-- Gregorian leap-year rule. -/
def isLeapYear (y : Nat) : Bool :=
  y % 4 = 0 && (y % 100 != 0 || y % 400 = 0)

/-- Number of days in month `m` (1–12) of year `y`. -/
def daysInMonth (y m : Nat) : Nat :=
  if m = 2 then (if isLeapYear y then 29 else 28)
  else if m = 4 ∨ m = 6 ∨ m = 9 ∨ m = 11 then 30
  else 31

/-- Days in year `y` before the first of month `m`. -/
def daysBeforeMonth (y : Nat) : Nat → Nat
  | 0 => 0
  | 1 => 0
  | m + 1 => daysBeforeMonth y m + daysInMonth y m

/-- Total days of year `y` (sum over its twelve months). -/
def daysInYear (y : Nat) : Nat := daysBeforeMonth y 13

/-- Days before January 1st of year `y`, counting from year 0. -/
def daysBeforeYear : Nat → Nat
  | 0 => 0
  | y + 1 => daysBeforeYear y + daysInYear y

theorem daysBeforeMonth_succ (y m : Nat) (h : 1 ≤ m) :
    daysBeforeMonth y (m + 1) = daysBeforeMonth y m + daysInMonth y m := by
  cases m with
  | zero => omega
  | succ k => rfl

/-- Position of a datetime on the absolute microsecond timeline. -/
def DateTime.toMicros (t : DateTime) : Nat :=
  (daysBeforeYear t.year + daysBeforeMonth t.year t.month + (t.day - 1)) * usPerDay
    + t.hour * usPerHour + t.minute * usPerMinute
    + t.second * usPerSecond + t.microsecond

/-- Field validity of a naive datetime (guaranteed by Python's `datetime`
constructor). -/
def DateTime.Valid (t : DateTime) : Prop :=
  1 ≤ t.month ∧ t.month ≤ 12 ∧ 1 ≤ t.day ∧ t.day ≤ daysInMonth t.year t.month ∧
    t.hour < 24 ∧ t.minute < 60 ∧ t.second < 60 ∧ t.microsecond < usPerSecond

instance (t : DateTime) : Decidable t.Valid := by
  unfold DateTime.Valid
  infer_instance

/-- Embedding of `RateLimiter._get_next_reset(period, t)`, expressed as the timeline
position of the returned datetime.  `minute`/`hour`/`day` truncate the
datetime (`replace(...)`) and add one period via `timedelta`; `month`
returns the first day of the next calendar month (with year rollover at
December). -/
def nextResetMicros (p : Period) (t : DateTime) : Nat :=
  match p with
  | .minute => DateTime.toMicros { t with second := 0, microsecond := 0 } + usPerMinute
  | .hour => DateTime.toMicros { t with minute := 0, second := 0, microsecond := 0 } + usPerHour
  | .day => DateTime.toMicros { t with hour := 0, minute := 0, second := 0, microsecond := 0 } + usPerDay
  | .month =>
      if t.month = 12 then
        DateTime.toMicros ⟨t.year + 1, 1, 1, 0, 0, 0, 0⟩
      else
        DateTime.toMicros ⟨t.year, t.month + 1, 1, 0, 0, 0, 0⟩

/-- For a valid datetime the next reset instant lies strictly in the
future: the minute/hour/day truncations discard less than one period, and
the first of the next month is after any instant inside the current
month. -/
theorem toMicros_lt_nextResetMicros (p : Period) (t : DateTime)
    (hv : t.Valid) : t.toMicros < nextResetMicros p t := by
  obtain ⟨hm1, hm12, hd1, hdm, hh, hmin, hs, hus⟩ := hv
  simp only [usPerSecond] at hus
  cases p with
  | minute =>
      simp only [nextResetMicros, DateTime.toMicros, usPerSecond, usPerMinute,
        usPerHour, usPerDay]
      omega
  | hour =>
      simp only [nextResetMicros, DateTime.toMicros, usPerSecond, usPerMinute,
        usPerHour, usPerDay]
      omega
  | day =>
      simp only [nextResetMicros, DateTime.toMicros, usPerSecond, usPerMinute,
        usPerHour, usPerDay]
      omega
  | month =>
      have hsm : daysBeforeMonth t.year (t.month + 1) =
          daysBeforeMonth t.year t.month + daysInMonth t.year t.month :=
        daysBeforeMonth_succ t.year t.month hm1
      have key : t.toMicros <
          (daysBeforeYear t.year + daysBeforeMonth t.year (t.month + 1)) *
            86400000000 := by
        simp only [DateTime.toMicros, hsm, usPerSecond, usPerMinute,
          usPerHour, usPerDay]
        omega
      by_cases h12 : t.month = 12
      · have h1 : nextResetMicros Period.month t =
            daysBeforeYear (t.year + 1) * 86400000000 := by
          simp only [nextResetMicros, if_pos h12, DateTime.toMicros,
            usPerSecond, usPerMinute, usPerHour, usPerDay]
          have hb1 : daysBeforeMonth (t.year + 1) 1 = 0 := rfl
          rw [hb1]
          omega
        have h2 : daysBeforeYear (t.year + 1) =
            daysBeforeYear t.year + daysBeforeMonth t.year 13 := rfl
        rw [h12] at key
        norm_num at key
        rw [h1, h2]
        omega
      · have h1 : nextResetMicros Period.month t =
            (daysBeforeYear t.year + daysBeforeMonth t.year (t.month + 1)) *
              86400000000 := by
          simp only [nextResetMicros, if_neg h12, DateTime.toMicros,
            usPerSecond, usPerMinute, usPerHour, usPerDay]
          omega
        rw [h1]
        exact key

/-! ## Rate limiter state

`self._config` holds the limits and last-reset times; the counters live in
Redis under `ratelimit:<service>:<period>:count` and
`ratelimit:<service>:total:count`.  `base` stands for
`self.redis_key_base = f'ratelimit:{service_name}'`. -/

/-- One entry of `self._config['reset_times']`: JSON `null`, an
unparseable string (`datetime.fromisoformat` raises, caught and skipped),
or a parsed datetime.  `isoformat` round-trips, so a written entry parses
back to the datetime it came from. -/
inductive ResetEntry
  | null
  | invalid
  | time (t : DateTime)
deriving DecidableEq

/-- Embedding of `self._config`: `limits` and `reset_times` for the four windows. -/
structure Config where
  limits : Period → Int
  resetTimes : Period → ResetEntry

/-- Redis `DEL key`. -/
def Store.del (s : Store) (k : String) : Store :=
  fun q => if q = k then none else s q

/-- Redis `INCR key` (missing key counts as 0). -/
def Store.incr (s : Store) (k : String) : Store :=
  fun q => if q = k then some ((s k).getD 0 + 1) else s q

theorem Store.del_self (s : Store) (k : String) : s.del k k = none := by
  simp [Store.del]

theorem Store.del_other (s : Store) (k q : String) (h : q ≠ k) :
    s.del k q = s q := by
  simp [Store.del, h]

theorem Store.incr_self (s : Store) (k : String) :
    s.incr k k = some ((s k).getD 0 + 1) := by
  simp [Store.incr]

theorem Store.incr_other (s : Store) (k q : String) (h : q ≠ k) :
    s.incr k q = s q := by
  simp [Store.incr, h]

theorem string_append_cancel_left {a b c : String} (h : a ++ b = a ++ c) :
    b = c := by
  have hd := congrArg String.data h
  simp only [String.data_append] at hd
  exact String.ext (List.append_cancel_left hd)

theorem countKey_inj {base : String} {p q : Period}
    (h : countKey base p = countKey base q) : p = q := by
  have := string_append_cancel_left h
  cases p <;> cases q <;> simp_all [Period.str]

theorem countKey_ne_totalKey (base : String) (p : Period) :
    countKey base p ≠ totalKey base := by
  intro h
  have hb : base ++ (":" ++ p.str ++ ":count") = base ++ ":total:count" := h
  have := string_append_cancel_left hb
  cases p <;> simp_all [Period.str]

/-- The fixed iteration order `['minute', 'hour', 'day', 'month']`. -/
def periods : List Period := [.minute, .hour, .day, .month]

/-- Update `self._config['reset_times'][period] = now.isoformat()`. -/
def Config.setReset (c : Config) (p : Period) (now : DateTime) : Config :=
  { c with resetTimes := fun q => if q = p then .time now else c.resetTimes q }

/-- One iteration of the loop in `_check_and_reset_counters`: a `null`
entry is skipped (`if not reset_time_str: continue`), an unparseable entry
is skipped (`except (ValueError, TypeError)`), and a parsed `last_reset`
whose next reset has arrived triggers `self.redis.delete(key)` and the
config update. -/
def resetStep (base : String) (now : DateTime) (cs : Config × Store)
    (p : Period) : Config × Store :=
  match cs.1.resetTimes p with
  | .null => cs
  | .invalid => cs
  | .time lastReset =>
      if nextResetMicros p lastReset ≤ now.toMicros then
        (cs.1.setReset p now, cs.2.del (countKey base p))
      else cs

/-- Embedding of `RateLimiter._check_and_reset_counters(now)` (the final
`update_redis` rewrites the cached config, whose content is the returned
`Config`; it does not touch any counter key). -/
def checkAndResetCounters (base : String) (cfg : Config) (s : Store)
    (now : DateTime) : Config × Store :=
  periods.foldl (resetStep base now) (cfg, s)

/-- Embedding of `(next_reset - now).total_seconds()`, on the microsecond timeline. -/
def waitMicros (p : Period) (now : DateTime) : Int :=
  (nextResetMicros p now : Int) - (now.toMicros : Int)

/-- The `wait_times` list built by `_atomic_check_and_increment`: windows
with `limit <= 0` are skipped; a window whose current count is at/over its
limit contributes its wait time when that wait time is positive. -/
def waitTimes (cfg : Config) (s : Store) (base : String) (now : DateTime) :
    List Int :=
  periods.filterMap (fun p =>
    if 0 < cfg.limits p ∧ cfg.limits p ≤ currentCount s base p ∧
        0 < waitMicros p now then
      some (waitMicros p now)
    else none)

/-- The increment pipeline: `INCR` + `EXPIRE` for every positive-limit
window, then an unconditional `INCR` of the total key, executed as one
atomic batch (`EXPIRE` only sets TTL metadata, which this store model does
not carry). -/
def incrAll (cfg : Config) (s : Store) (base : String) : Store :=
  (periods.foldl
      (fun st p => if 0 < cfg.limits p then st.incr (countKey base p) else st)
      s).incr (totalKey base)

/-- Result of `_atomic_check_and_increment`: the `(bool, wait)` pair
together with the limiter's mutated config and the Redis state. -/
structure AtomicResult where
  allowed : Bool
  wait : Int
  config : Config
  store : Store

/-- Embedding of `RateLimiter._atomic_check_and_increment()`: rollover check, then the
limit checks (strictly before any increment), then — only when no window
is saturated — the pipelined increments.  The probabilistic
`_sync_to_db_async` call only reads counter keys and never raises, so it
does not affect this state. -/
def atomicCheckAndIncrement (base : String) (cfg : Config) (s : Store)
    (now : DateTime) : AtomicResult :=
  let cs := checkAndResetCounters base cfg s now
  let w := waitTimes cs.1 cs.2 base now
  match w.max? with
  | some m => { allowed := false, wait := m, config := cs.1, store := cs.2 }
  | none =>
      { allowed := true, wait := 0, config := cs.1,
        store := incrAll cs.1 cs.2 base }

/-- Embedding of `RateLimiter.acquire(timeout=0)`: on a denial the loop finds
`remaining = 0 - elapsed ≤ 0` and returns false at once, so exactly one
`_atomic_check_and_increment` attempt runs; on a grant it returns true
immediately. -/
def acquireZeroTimeout (base : String) (cfg : Config) (s : Store)
    (now : DateTime) : AtomicResult :=
  atomicCheckAndIncrement base cfg s now

/-- State of the limiter after `n` successive `acquire(timeout=0)` calls,
the `i`-th call (0-based) observing time `ts i`. -/
def runAcquires (base : String) (ts : Nat → DateTime) :
    Nat → Config → Store → Config × Store
  | 0, cfg, s => (cfg, s)
  | n + 1, cfg, s =>
      ((acquireZeroTimeout base (runAcquires base ts n cfg s).1
          (runAcquires base ts n cfg s).2 (ts n)).config,
       (acquireZeroTimeout base (runAcquires base ts n cfg s).1
          (runAcquires base ts n cfg s).2 (ts n)).store)

/-! ## Rollover stability -/

/-- A reset-times entry that `_check_and_reset_counters` leaves alone at
instant `now`: absent, unparseable, or with its next reset still in the
future. -/
def StableEntry (p : Period) (now : DateTime) : ResetEntry → Prop
  | .null => True
  | .invalid => True
  | .time r => now.toMicros < nextResetMicros p r

theorem resetStep_of_stable {base : String} {now : DateTime}
    {cs : Config × Store} {p : Period}
    (h : StableEntry p now (cs.1.resetTimes p)) :
    resetStep base now cs p = cs := by
  unfold resetStep
  cases he : cs.1.resetTimes p with
  | null => rfl
  | invalid => rfl
  | time r =>
      rw [he] at h
      simp only [StableEntry] at h
      dsimp only
      rw [if_neg (by omega)]

theorem resetStep_resetTimes_other (base : String) (now : DateTime)
    (cs : Config × Store) (p q : Period) (hq : q ≠ p) :
    (resetStep base now cs p).1.resetTimes q = cs.1.resetTimes q := by
  unfold resetStep
  cases cs.1.resetTimes p with
  | null => rfl
  | invalid => rfl
  | time r =>
      dsimp only
      by_cases hd : nextResetMicros p r ≤ now.toMicros
      · rw [if_pos hd]
        simp [Config.setReset, hq]
      · rw [if_neg hd]

theorem resetStep_store_other (base : String) (now : DateTime)
    (cs : Config × Store) (p : Period) (k : String)
    (hk : k ≠ countKey base p) :
    (resetStep base now cs p).2 k = cs.2 k := by
  unfold resetStep
  cases cs.1.resetTimes p with
  | null => rfl
  | invalid => rfl
  | time r =>
      dsimp only
      by_cases hd : nextResetMicros p r ≤ now.toMicros
      · rw [if_pos hd]
        exact Store.del_other _ _ _ hk
      · rw [if_neg hd]

theorem resetStep_stable_self (base : String) (now : DateTime)
    (cs : Config × Store) (p : Period) (hv : now.Valid) :
    StableEntry p now ((resetStep base now cs p).1.resetTimes p) := by
  unfold resetStep
  cases he : cs.1.resetTimes p with
  | null => rw [he]; trivial
  | invalid => rw [he]; trivial
  | time r =>
      dsimp only
      by_cases hd : nextResetMicros p r ≤ now.toMicros
      · rw [if_pos hd]
        simp only [Config.setReset, if_pos rfl]
        exact toMicros_lt_nextResetMicros p now hv
      · rw [if_neg hd, he]
        simp only [StableEntry]
        omega

theorem checkAndResetCounters_eq_steps (base : String) (cfg : Config)
    (s : Store) (now : DateTime) :
    checkAndResetCounters base cfg s now =
      resetStep base now
        (resetStep base now
          (resetStep base now
            (resetStep base now (cfg, s) Period.minute)
            Period.hour)
          Period.day)
        Period.month := rfl

/-- After one `_check_and_reset_counters` pass, every window's entry is
stable at `now`: each entry is rewritten to `now` (whose next boundary is
strictly in the future) or left alone because it was already stable. -/
theorem checkAndResetCounters_stable (base : String) (cfg : Config)
    (s : Store) (now : DateTime) (hv : now.Valid) (p : Period) :
    StableEntry p now
      ((checkAndResetCounters base cfg s now).1.resetTimes p) := by
  rw [checkAndResetCounters_eq_steps]
  cases p with
  | minute =>
      rw [resetStep_resetTimes_other _ _ _ _ _ (by simp),
        resetStep_resetTimes_other _ _ _ _ _ (by simp),
        resetStep_resetTimes_other _ _ _ _ _ (by simp)]
      exact resetStep_stable_self _ _ _ _ hv
  | hour =>
      rw [resetStep_resetTimes_other _ _ _ _ _ (by simp),
        resetStep_resetTimes_other _ _ _ _ _ (by simp)]
      exact resetStep_stable_self _ _ _ _ hv
  | day =>
      rw [resetStep_resetTimes_other _ _ _ _ _ (by simp)]
      exact resetStep_stable_self _ _ _ _ hv
  | month =>
      exact resetStep_stable_self _ _ _ _ hv

/-- When every entry is stable, `_check_and_reset_counters` is a no-op. -/
theorem checkAndResetCounters_of_stable (base : String) (cfg : Config)
    (s : Store) (now : DateTime)
    (h : ∀ p, StableEntry p now (cfg.resetTimes p)) :
    checkAndResetCounters base cfg s now = (cfg, s) := by
  rw [checkAndResetCounters_eq_steps]
  rw [resetStep_of_stable (h Period.minute), resetStep_of_stable (h Period.hour),
    resetStep_of_stable (h Period.day), resetStep_of_stable (h Period.month)]

/-- The rollover check never touches the lifetime total key. -/
theorem checkAndResetCounters_totalKey (base : String) (cfg : Config)
    (s : Store) (now : DateTime) :
    (checkAndResetCounters base cfg s now).2 (totalKey base) =
      s (totalKey base) := by
  rw [checkAndResetCounters_eq_steps]
  rw [resetStep_store_other _ _ _ _ _ (Ne.symm (countKey_ne_totalKey base _)),
    resetStep_store_other _ _ _ _ _ (Ne.symm (countKey_ne_totalKey base _)),
    resetStep_store_other _ _ _ _ _ (Ne.symm (countKey_ne_totalKey base _)),
    resetStep_store_other _ _ _ _ _ (Ne.symm (countKey_ne_totalKey base _))]

/-! ## Admission-phase lemmas -/

theorem mem_periods (p : Period) : p ∈ periods := by
  cases p <;> simp [periods]

theorem countKey_ne (base : String) {p q : Period} (h : p ≠ q) :
    countKey base p ≠ countKey base q :=
  fun he => h (countKey_inj he)

/-- One conditional increment of the pipeline loop. -/
def incrStep (cfg : Config) (base : String) (st : Store) (p : Period) :
    Store :=
  if 0 < cfg.limits p then st.incr (countKey base p) else st

theorem incrAll_eq_steps (cfg : Config) (s : Store) (base : String) :
    incrAll cfg s base =
      (incrStep cfg base
        (incrStep cfg base
          (incrStep cfg base
            (incrStep cfg base s Period.minute)
            Period.hour)
          Period.day)
        Period.month).incr (totalKey base) := rfl

theorem incrStep_other (cfg : Config) (base : String) (st : Store)
    {p q : Period} (h : p ≠ q) :
    incrStep cfg base st q (countKey base p) = st (countKey base p) := by
  unfold incrStep
  by_cases hc : 0 < cfg.limits q
  · rw [if_pos hc]
    exact Store.incr_other _ _ _ (countKey_ne base h)
  · rw [if_neg hc]

theorem incrStep_self (cfg : Config) (base : String) (st : Store)
    (p : Period) :
    incrStep cfg base st p (countKey base p) =
      if 0 < cfg.limits p then some ((st (countKey base p)).getD 0 + 1)
      else st (countKey base p) := by
  unfold incrStep
  by_cases hc : 0 < cfg.limits p
  · rw [if_pos hc, if_pos hc]
    exact Store.incr_self _ _
  · rw [if_neg hc, if_neg hc]

theorem incrStep_total (cfg : Config) (base : String) (st : Store)
    (q : Period) :
    incrStep cfg base st q (totalKey base) = st (totalKey base) := by
  unfold incrStep
  by_cases hc : 0 < cfg.limits q
  · rw [if_pos hc]
    exact Store.incr_other _ _ _ (Ne.symm (countKey_ne_totalKey base q))
  · rw [if_neg hc]

/-- Reading a window counter after the pipeline: incremented exactly when
that window's limit is positive. -/
theorem incrAll_countKey (cfg : Config) (s : Store) (base : String)
    (p : Period) :
    incrAll cfg s base (countKey base p) =
      if 0 < cfg.limits p then some ((s (countKey base p)).getD 0 + 1)
      else s (countKey base p) := by
  rw [incrAll_eq_steps,
    Store.incr_other _ _ _ (countKey_ne_totalKey base p)]
  cases p with
  | minute =>
      rw [incrStep_other _ _ _ (by simp), incrStep_other _ _ _ (by simp),
        incrStep_other _ _ _ (by simp), incrStep_self]
  | hour =>
      rw [incrStep_other _ _ _ (by simp), incrStep_other _ _ _ (by simp),
        incrStep_self, incrStep_other _ _ _ (by simp)]
  | day =>
      rw [incrStep_other _ _ _ (by simp), incrStep_self,
        incrStep_other _ _ _ (by simp), incrStep_other _ _ _ (by simp)]
  | month =>
      rw [incrStep_self, incrStep_other _ _ _ (by simp),
        incrStep_other _ _ _ (by simp), incrStep_other _ _ _ (by simp)]

/-- Reading the lifetime total after the pipeline: always incremented by
one. -/
theorem incrAll_total (cfg : Config) (s : Store) (base : String) :
    incrAll cfg s base (totalKey base) =
      some ((s (totalKey base)).getD 0 + 1) := by
  rw [incrAll_eq_steps, Store.incr_self, incrStep_total, incrStep_total,
    incrStep_total, incrStep_total]

/-- Membership in the `wait_times` list. -/
theorem mem_waitTimes_iff (cfg : Config) (s : Store) (base : String)
    (now : DateTime) (x : Int) :
    x ∈ waitTimes cfg s base now ↔
      ∃ p, (0 < cfg.limits p ∧ cfg.limits p ≤ currentCount s base p ∧
        0 < waitMicros p now) ∧ x = waitMicros p now := by
  unfold waitTimes
  rw [List.mem_filterMap]
  constructor
  · rintro ⟨p, _, hp⟩
    by_cases hc : 0 < cfg.limits p ∧ cfg.limits p ≤ currentCount s base p ∧
        0 < waitMicros p now
    · rw [if_pos hc] at hp
      exact ⟨p, hc, (Option.some_inj.mp hp).symm⟩
    · rw [if_neg hc] at hp
      exact absurd hp (by simp)
  · rintro ⟨p, hc, hx⟩
    exact ⟨p, mem_periods p, by rw [if_pos hc, hx]⟩

/-- The `wait_times` list is empty iff no positive-limit window is
saturated (valid `now`, so every wait time is positive). -/
theorem waitTimes_eq_nil_iff (cfg : Config) (s : Store) (base : String)
    (now : DateTime) (hv : now.Valid) :
    waitTimes cfg s base now = [] ↔
      ∀ p, 0 < cfg.limits p → currentCount s base p < cfg.limits p := by
  rw [List.eq_nil_iff_forall_not_mem]
  constructor
  · intro h p hl
    by_contra hc
    push_neg at hc
    have hw : (0 : Int) < waitMicros p now := by
      have := toMicros_lt_nextResetMicros p now hv
      unfold waitMicros
      omega
    exact h (waitMicros p now)
      ((mem_waitTimes_iff cfg s base now _).mpr ⟨p, ⟨hl, hc, hw⟩, rfl⟩)
  · intro h x hx
    obtain ⟨p, ⟨hl, hc, _⟩, _⟩ := (mem_waitTimes_iff cfg s base now x).mp hx
    exact absurd hc (not_le.mpr (h p hl))

theorem intList_max?_spec {l : List Int} {m : Int} (h : l.max? = some m) :
    m ∈ l ∧ ∀ x ∈ l, x ≤ m := by
  haveI : Std.Antisymm ((· : Int) ≤ ·) := ⟨fun h1 h2 => le_antisymm h1 h2⟩
  rw [List.max?_eq_some_iff (fun a => le_refl a) (fun a b => max_choice a b)
    (fun a b c => max_le_iff)] at h
  exact h

theorem intList_max?_of_ne_nil {l : List Int} (h : l ≠ []) :
    ∃ m, l.max? = some m := by
  cases hm : l.max? with
  | none => exact absurd (List.max?_eq_none_iff.mp hm) h
  | some m => exact ⟨m, rfl⟩

/-- C5: Calling `_check_and_reset_counters` twice in immediate succession
(same `now`, no elapsed time) performs at most one reset per window — the
second call changes nothing — and no window rollover ever deletes or
modifies the lifetime total counter key. -/
theorem rollover_idempotent_total_untouched (base : String) (cfg : Config)
    (s : Store) (now : DateTime) (hv : now.Valid) :
    checkAndResetCounters base
        (checkAndResetCounters base cfg s now).1
        (checkAndResetCounters base cfg s now).2 now =
      checkAndResetCounters base cfg s now ∧
    (checkAndResetCounters base cfg s now).2 (totalKey base) =
      s (totalKey base) := by
  constructor
  · have hst := checkAndResetCounters_stable base cfg s now hv
    have h2 := checkAndResetCounters_of_stable base
      (checkAndResetCounters base cfg s now).1
      (checkAndResetCounters base cfg s now).2 now hst
    exact h2
  · exact checkAndResetCounters_totalKey base cfg s now

theorem rollover_idempotent_total_untouched_witness :
    DateTime.Valid ⟨2024, 5, 15, 10, 30, 20, 0⟩ ∧
    (checkAndResetCounters "ratelimit:svc"
        (checkAndResetCounters "ratelimit:svc"
          ⟨fun _ => 10, fun _ => ResetEntry.time ⟨2024, 5, 15, 10, 30, 0, 0⟩⟩
          (fun _ => some 3) ⟨2024, 5, 15, 10, 30, 20, 0⟩).1
        (checkAndResetCounters "ratelimit:svc"
          ⟨fun _ => 10, fun _ => ResetEntry.time ⟨2024, 5, 15, 10, 30, 0, 0⟩⟩
          (fun _ => some 3) ⟨2024, 5, 15, 10, 30, 20, 0⟩).2
        ⟨2024, 5, 15, 10, 30, 20, 0⟩ =
      checkAndResetCounters "ratelimit:svc"
        ⟨fun _ => 10, fun _ => ResetEntry.time ⟨2024, 5, 15, 10, 30, 0, 0⟩⟩
        (fun _ => some 3) ⟨2024, 5, 15, 10, 30, 20, 0⟩ ∧
      (checkAndResetCounters "ratelimit:svc"
        ⟨fun _ => 10, fun _ => ResetEntry.time ⟨2024, 5, 15, 10, 30, 0, 0⟩⟩
        (fun _ => some 3) ⟨2024, 5, 15, 10, 30, 20, 0⟩).2
          (totalKey "ratelimit:svc") =
        (fun _ => some 3 : Store) (totalKey "ratelimit:svc")) :=
  ⟨by decide,
    rollover_idempotent_total_untouched "ratelimit:svc"
      ⟨fun _ => 10, fun _ => ResetEntry.time ⟨2024, 5, 15, 10, 30, 0, 0⟩⟩
      (fun _ => some 3) ⟨2024, 5, 15, 10, 30, 20, 0⟩ (by decide)⟩

/-- C1: In `_atomic_check_and_increment`, the limit check for all
positive-limit windows happens strictly before any counter mutation:
relative to the state after the rollover check, if any positive-limit
window is at/over its limit the method denies, returns the maximum of the
computed per-window wait times, and mutates no counter (window or
lifetime total); the counters are incremented only when no window is
saturated. -/
theorem atomic_checks_strictly_precede_increments
    (base : String) (cfg c1 : Config) (s s1 : Store) (now : DateTime)
    (hv : now.Valid)
    (hcs : checkAndResetCounters base cfg s now = (c1, s1)) :
    ((∃ p, 0 < c1.limits p ∧ c1.limits p ≤ currentCount s1 base p) →
      (atomicCheckAndIncrement base cfg s now).allowed = false ∧
      (atomicCheckAndIncrement base cfg s now).store = s1 ∧
      (∀ p, 0 < c1.limits p → c1.limits p ≤ currentCount s1 base p →
        waitMicros p now ≤ (atomicCheckAndIncrement base cfg s now).wait) ∧
      (∃ p, 0 < c1.limits p ∧ c1.limits p ≤ currentCount s1 base p ∧
        (atomicCheckAndIncrement base cfg s now).wait = waitMicros p now)) ∧
    ((∀ p, 0 < c1.limits p → currentCount s1 base p < c1.limits p) →
      (atomicCheckAndIncrement base cfg s now).allowed = true ∧
      (∀ p, 0 < c1.limits p →
        (atomicCheckAndIncrement base cfg s now).store (countKey base p) =
          some (currentCount s1 base p + 1)) ∧
      (∀ p, c1.limits p ≤ 0 →
        (atomicCheckAndIncrement base cfg s now).store (countKey base p) =
          s1 (countKey base p)) ∧
      (atomicCheckAndIncrement base cfg s now).store (totalKey base) =
        some ((s1 (totalKey base)).getD 0 + 1)) := by
  have hr : atomicCheckAndIncrement base cfg s now =
      match (waitTimes c1 s1 base now).max? with
      | some m => { allowed := false, wait := m, config := c1, store := s1 }
      | none =>
          { allowed := true, wait := 0, config := c1,
            store := incrAll c1 s1 base } := by
    unfold atomicCheckAndIncrement
    rw [hcs]
  have hwpos : ∀ p : Period, (0 : Int) < waitMicros p now := by
    intro p
    have := toMicros_lt_nextResetMicros p now hv
    unfold waitMicros
    omega
  constructor
  · rintro ⟨p, hl, hc⟩
    have hmem : waitMicros p now ∈ waitTimes c1 s1 base now :=
      (mem_waitTimes_iff c1 s1 base now _).mpr ⟨p, ⟨hl, hc, hwpos p⟩, rfl⟩
    have hne : waitTimes c1 s1 base now ≠ [] := by
      intro h
      rw [h] at hmem
      exact absurd hmem (List.not_mem_nil _)
    obtain ⟨m, hm⟩ := intList_max?_of_ne_nil hne
    obtain ⟨hmmem, hmax⟩ := intList_max?_spec hm
    rw [hr, hm]
    refine ⟨rfl, rfl, ?_, ?_⟩
    · intro q hql hqc
      exact hmax _ ((mem_waitTimes_iff c1 s1 base now _).mpr
        ⟨q, ⟨hql, hqc, hwpos q⟩, rfl⟩)
    · obtain ⟨q, ⟨hql, hqc, _⟩, hqe⟩ :=
        (mem_waitTimes_iff c1 s1 base now m).mp hmmem
      exact ⟨q, hql, hqc, hqe⟩
  · intro h
    have hnil : waitTimes c1 s1 base now = [] :=
      (waitTimes_eq_nil_iff c1 s1 base now hv).mpr h
    rw [hr, hnil]
    refine ⟨rfl, ?_, ?_, ?_⟩
    · intro p hl
      show incrAll c1 s1 base (countKey base p) = _
      rw [incrAll_countKey, if_pos hl]
      rfl
    · intro p hl
      show incrAll c1 s1 base (countKey base p) = _
      rw [incrAll_countKey, if_neg (by omega)]
    · show incrAll c1 s1 base (totalKey base) = _
      exact incrAll_total c1 s1 base

theorem atomic_checks_strictly_precede_increments_witness :
    DateTime.Valid ⟨2025, 1, 31, 23, 59, 59, 999999⟩ ∧
    checkAndResetCounters "ratelimit:svc"
        ⟨fun _ => 5, fun _ => ResetEntry.null⟩ (fun _ => some 5)
        ⟨2025, 1, 31, 23, 59, 59, 999999⟩ =
      (⟨fun _ => 5, fun _ => ResetEntry.null⟩, fun _ => some 5) ∧
    ((∃ p, 0 < (⟨fun _ => 5, fun _ => ResetEntry.null⟩ : Config).limits p ∧
        (⟨fun _ => 5, fun _ => ResetEntry.null⟩ : Config).limits p ≤
          currentCount (fun _ => some 5) "ratelimit:svc" p) →
      (atomicCheckAndIncrement "ratelimit:svc"
        ⟨fun _ => 5, fun _ => ResetEntry.null⟩ (fun _ => some 5)
        ⟨2025, 1, 31, 23, 59, 59, 999999⟩).allowed = false ∧
      (atomicCheckAndIncrement "ratelimit:svc"
        ⟨fun _ => 5, fun _ => ResetEntry.null⟩ (fun _ => some 5)
        ⟨2025, 1, 31, 23, 59, 59, 999999⟩).store = (fun _ => some 5) ∧
      (∀ p, 0 < (⟨fun _ => 5, fun _ => ResetEntry.null⟩ : Config).limits p →
        (⟨fun _ => 5, fun _ => ResetEntry.null⟩ : Config).limits p ≤
          currentCount (fun _ => some 5) "ratelimit:svc" p →
        waitMicros p ⟨2025, 1, 31, 23, 59, 59, 999999⟩ ≤
          (atomicCheckAndIncrement "ratelimit:svc"
            ⟨fun _ => 5, fun _ => ResetEntry.null⟩ (fun _ => some 5)
            ⟨2025, 1, 31, 23, 59, 59, 999999⟩).wait) ∧
      (∃ p, 0 < (⟨fun _ => 5, fun _ => ResetEntry.null⟩ : Config).limits p ∧
        (⟨fun _ => 5, fun _ => ResetEntry.null⟩ : Config).limits p ≤
          currentCount (fun _ => some 5) "ratelimit:svc" p ∧
        (atomicCheckAndIncrement "ratelimit:svc"
          ⟨fun _ => 5, fun _ => ResetEntry.null⟩ (fun _ => some 5)
          ⟨2025, 1, 31, 23, 59, 59, 999999⟩).wait =
          waitMicros p ⟨2025, 1, 31, 23, 59, 59, 999999⟩)) :=
  ⟨by decide, rfl,
    (atomic_checks_strictly_precede_increments "ratelimit:svc"
      ⟨fun _ => 5, fun _ => ResetEntry.null⟩
      ⟨fun _ => 5, fun _ => ResetEntry.null⟩
      (fun _ => some 5) (fun _ => some 5)
      ⟨2025, 1, 31, 23, 59, 59, 999999⟩ (by decide) rfl).1⟩

/-- Redis state after `k` granted admissions: `k` executions of the
increment pipeline. -/
def pipeIter (cfg : Config) (base : String) (s : Store) : Nat → Store
  | 0 => s
  | k + 1 => incrAll cfg (pipeIter cfg base s k) base

/-- C4: for a resource whose window `w` has positive limit `L` — the
binding window: every other window is unenforced (`limit ≤ 0`) or has a
limit above `L` — starting from zero counters, with no window rollover due
at any observed time, `L` consecutive `acquire(timeout=0)` calls are
granted and the `(L+1)`-th is denied with reported wait time exactly the
time remaining to `w`'s next calendar boundary. -/
theorem limiter_exhausts_window_after_L
    (base : String) (cfg : Config) (s : Store) (ts : Nat → DateTime)
    (w : Period) (L : Nat) (hLpos : 0 < L) (hL : cfg.limits w = (L : Int))
    (hother : ∀ p, p ≠ w → cfg.limits p ≤ 0 ∨ (L : Int) < cfg.limits p)
    (hzero : ∀ p, s (countKey base p) = none)
    (hvalid : ∀ k, k ≤ L → (ts k).Valid)
    (hstable : ∀ k, k ≤ L → ∀ p, StableEntry p (ts k) (cfg.resetTimes p)) :
    (∀ k, k < L →
      (acquireZeroTimeout base (runAcquires base ts k cfg s).1
        (runAcquires base ts k cfg s).2 (ts k)).allowed = true) ∧
    (acquireZeroTimeout base (runAcquires base ts L cfg s).1
      (runAcquires base ts L cfg s).2 (ts L)).allowed = false ∧
    (acquireZeroTimeout base (runAcquires base ts L cfg s).1
      (runAcquires base ts L cfg s).2 (ts L)).wait =
      waitMicros w (ts L) := by
  have hcount : ∀ (k : Nat) (p : Period),
      currentCount (pipeIter cfg base s k) base p =
        if 0 < cfg.limits p then (k : Int) else 0 := by
    intro k p
    induction k with
    | zero =>
        have h0 : currentCount s base p = 0 := by
          unfold currentCount
          rw [hzero p]
          rfl
        show currentCount s base p = _
        rw [h0]
        split <;> simp
    | succ n ihn =>
        show currentCount (incrAll cfg (pipeIter cfg base s n) base) base p = _
        unfold currentCount
        rw [incrAll_countKey]
        by_cases hp : 0 < cfg.limits p
        · rw [if_pos hp, if_pos hp]
          simp only [Option.getD_some]
          rw [if_pos hp] at ihn
          unfold currentCount at ihn
          rw [ihn]
          push_cast
          ring
        · rw [if_neg hp, if_neg hp]
          rw [if_neg hp] at ihn
          unfold currentCount at ihn
          exact ihn
  have hstep : ∀ k, k < L →
      atomicCheckAndIncrement base cfg (pipeIter cfg base s k) (ts k) =
        { allowed := true, wait := 0, config := cfg,
          store := incrAll cfg (pipeIter cfg base s k) base } := by
    intro k hk
    have hid := checkAndResetCounters_of_stable base cfg
      (pipeIter cfg base s k) (ts k) (hstable k (le_of_lt hk))
    have hr : atomicCheckAndIncrement base cfg (pipeIter cfg base s k) (ts k) =
        match (waitTimes cfg (pipeIter cfg base s k) base (ts k)).max? with
        | some m =>
            { allowed := false, wait := m, config := cfg,
              store := pipeIter cfg base s k }
        | none =>
            { allowed := true, wait := 0, config := cfg,
              store := incrAll cfg (pipeIter cfg base s k) base } := by
      unfold atomicCheckAndIncrement
      rw [hid]
    have hnil : waitTimes cfg (pipeIter cfg base s k) base (ts k) = [] := by
      rw [waitTimes_eq_nil_iff _ _ _ _ (hvalid k (le_of_lt hk))]
      intro p hp
      rw [hcount k p, if_pos hp]
      by_cases hpw : p = w
      · subst hpw
        rw [hL]
        exact_mod_cast hk
      · rcases hother p hpw with hle | hgt
        · omega
        · have hkL : (k : Int) < (L : Int) := by exact_mod_cast hk
          omega
    rw [hr, hnil]
    rfl
  have hrun : ∀ k, k ≤ L →
      runAcquires base ts k cfg s = (cfg, pipeIter cfg base s k) := by
    intro k
    induction k with
    | zero => intro _; rfl
    | succ n ihn =>
        intro hk
        unfold runAcquires
        rw [ihn (by omega)]
        show ((acquireZeroTimeout base cfg (pipeIter cfg base s n) (ts n)).config,
          (acquireZeroTimeout base cfg (pipeIter cfg base s n) (ts n)).store) = _
        show ((atomicCheckAndIncrement base cfg (pipeIter cfg base s n) (ts n)).config,
          (atomicCheckAndIncrement base cfg (pipeIter cfg base s n) (ts n)).store) = _
        rw [hstep n (by omega)]
        rfl
  refine ⟨?_, ?_⟩
  · intro k hk
    rw [hrun k (le_of_lt hk)]
    show (atomicCheckAndIncrement base cfg (pipeIter cfg base s k) (ts k)).allowed = true
    rw [hstep k hk]
  · have hidL := checkAndResetCounters_of_stable base cfg
      (pipeIter cfg base s L) (ts L) (hstable L (le_refl L))
    have hrL : atomicCheckAndIncrement base cfg (pipeIter cfg base s L) (ts L) =
        match (waitTimes cfg (pipeIter cfg base s L) base (ts L)).max? with
        | some m =>
            { allowed := false, wait := m, config := cfg,
              store := pipeIter cfg base s L }
        | none =>
            { allowed := true, wait := 0, config := cfg,
              store := incrAll cfg (pipeIter cfg base s L) base } := by
      unfold atomicCheckAndIncrement
      rw [hidL]
    have hsat : ∀ x, x ∈ waitTimes cfg (pipeIter cfg base s L) base (ts L) ↔
        x = waitMicros w (ts L) := by
      intro x
      rw [mem_waitTimes_iff]
      constructor
      · rintro ⟨p, ⟨hp, hcsat, _⟩, hx⟩
        by_cases hpw : p = w
        · subst hpw
          exact hx
        · rcases hother p hpw with hle | hgt
          · omega
          · rw [hcount L p, if_pos hp] at hcsat
            omega
      · rintro rfl
        refine ⟨w, ⟨?_, ?_, ?_⟩, rfl⟩
        · rw [hL]
          exact_mod_cast hLpos
        · rw [hcount L w]
          rw [hL]
          rw [if_pos (by exact_mod_cast hLpos)]
        · have := toMicros_lt_nextResetMicros w (ts L) (hvalid L (le_refl L))
          unfold waitMicros
          omega
    have hmemw : waitMicros w (ts L) ∈
        waitTimes cfg (pipeIter cfg base s L) base (ts L) := (hsat _).mpr rfl
    have hne : waitTimes cfg (pipeIter cfg base s L) base (ts L) ≠ [] := by
      intro h
      rw [h] at hmemw
      exact absurd hmemw (List.not_mem_nil _)
    obtain ⟨m, hm⟩ := intList_max?_of_ne_nil hne
    obtain ⟨hmmem, _⟩ := intList_max?_spec hm
    have hmw : m = waitMicros w (ts L) := (hsat m).mp hmmem
    rw [hrun L (le_refl L)]
    constructor
    · show (atomicCheckAndIncrement base cfg (pipeIter cfg base s L) (ts L)).allowed = false
      rw [hrL, hm]
    · show (atomicCheckAndIncrement base cfg (pipeIter cfg base s L) (ts L)).wait =
        waitMicros w (ts L)
      rw [hrL, hm]
      exact hmw

theorem limiter_exhausts_window_after_L_witness :
    (∀ k, k < 2 →
      (acquireZeroTimeout "ratelimit:svc"
        (runAcquires "ratelimit:svc" (fun _ => ⟨2024, 5, 15, 10, 30, 20, 0⟩) k
          ⟨fun p => if p = Period.minute then 2 else 0, fun _ => ResetEntry.null⟩
          (fun _ => none)).1
        (runAcquires "ratelimit:svc" (fun _ => ⟨2024, 5, 15, 10, 30, 20, 0⟩) k
          ⟨fun p => if p = Period.minute then 2 else 0, fun _ => ResetEntry.null⟩
          (fun _ => none)).2
        ⟨2024, 5, 15, 10, 30, 20, 0⟩).allowed = true) ∧
    (acquireZeroTimeout "ratelimit:svc"
      (runAcquires "ratelimit:svc" (fun _ => ⟨2024, 5, 15, 10, 30, 20, 0⟩) 2
        ⟨fun p => if p = Period.minute then 2 else 0, fun _ => ResetEntry.null⟩
        (fun _ => none)).1
      (runAcquires "ratelimit:svc" (fun _ => ⟨2024, 5, 15, 10, 30, 20, 0⟩) 2
        ⟨fun p => if p = Period.minute then 2 else 0, fun _ => ResetEntry.null⟩
        (fun _ => none)).2
      ⟨2024, 5, 15, 10, 30, 20, 0⟩).allowed = false ∧
    (acquireZeroTimeout "ratelimit:svc"
      (runAcquires "ratelimit:svc" (fun _ => ⟨2024, 5, 15, 10, 30, 20, 0⟩) 2
        ⟨fun p => if p = Period.minute then 2 else 0, fun _ => ResetEntry.null⟩
        (fun _ => none)).1
      (runAcquires "ratelimit:svc" (fun _ => ⟨2024, 5, 15, 10, 30, 20, 0⟩) 2
        ⟨fun p => if p = Period.minute then 2 else 0, fun _ => ResetEntry.null⟩
        (fun _ => none)).2
      ⟨2024, 5, 15, 10, 30, 20, 0⟩).wait =
      waitMicros Period.minute ⟨2024, 5, 15, 10, 30, 20, 0⟩ :=
  limiter_exhausts_window_after_L "ratelimit:svc"
    ⟨fun p => if p = Period.minute then 2 else 0, fun _ => ResetEntry.null⟩
    (fun _ => none) (fun _ => ⟨2024, 5, 15, 10, 30, 20, 0⟩) Period.minute 2
    (by decide) (by decide)
    (by
      intro p hp
      cases p with
      | minute => exact absurd rfl hp
      | hour => exact Or.inl (by decide)
      | day => exact Or.inl (by decide)
      | month => exact Or.inl (by decide))
    (fun _ => rfl)
    (fun _ _ =>
      (by decide : DateTime.Valid ⟨2024, 5, 15, 10, 30, 20, 0⟩))
    (fun _ _ p => trivial)

/-! ## Exception flow of the admission path

`acquire` and `_atomic_check_and_increment` contain no `try/except`: the
only exception handlers on the admission path are the
`except (ValueError, TypeError)` around timestamp parsing in
`_check_and_reset_counters` (which does not catch store errors) and the
`except Exception` inside `_sync_to_db_async`.  To settle what happens
when the backing store raises, the same code is embedded again with every
Redis operation made fallible: an `RState` whose `failing` flag is set
raises on every operation, modelling an unreachable store. -/

/-- Redis connection state: the stored counters plus whether operations
currently raise (`redis.exceptions.RedisError`, modelled as `.error ()`). -/
structure RState where
  data : String → Option Int
  failing : Bool

/-- Embedding of `self.redis.get(key)`. -/
def rget (s : RState) (k : String) : Except Unit (Option Int) :=
  if s.failing then .error () else .ok (s.data k)

/-- Embedding of `self.redis.delete(key)`. -/
def rdel (s : RState) (k : String) : Except Unit RState :=
  if s.failing then .error ()
  else .ok { s with data := fun q => if q = k then none else s.data q }

/-- Embedding of `INCR key` (as part of the executed pipeline). -/
def rincr (s : RState) (k : String) : Except Unit RState :=
  if s.failing then .error ()
  else .ok { s with
    data := fun q => if q = k then some ((s.data k).getD 0 + 1) else s.data q }

/-- Embedding of `self.update_redis()`: a `SET` of the serialized config under the
config key (the written payload mirrors the returned `Config`; the config
key is outside the integer counter map). -/
def rsetConfig (s : RState) : Except Unit RState :=
  if s.failing then .error () else .ok s

/-- One loop iteration of `_check_and_reset_counters`, threading
`(config, store, updated)`; only `ValueError`/`TypeError` are caught, so a
store error from `delete` propagates. -/
def resetStepM (base : String) (now : DateTime) (p : Period)
    (a : Config × RState × Bool) : Except Unit (Config × RState × Bool) :=
  match a.1.resetTimes p with
  | .null => .ok a
  | .invalid => .ok a
  | .time lastReset =>
      if nextResetMicros p lastReset ≤ now.toMicros then
        match rdel a.2.1 (countKey base p) with
        | .error e => .error e
        | .ok s2 => .ok (a.1.setReset p now, s2, true)
      else .ok a

/-- Embedding of `_check_and_reset_counters(now)` with fallible store operations. -/
def checkAndResetCountersM (base : String) (now : DateTime) (cfg : Config)
    (s : RState) : Except Unit (Config × RState) :=
  match resetStepM base now Period.minute (cfg, s, false) with
  | .error e => .error e
  | .ok a =>
    match resetStepM base now Period.hour a with
    | .error e => .error e
    | .ok a =>
      match resetStepM base now Period.day a with
      | .error e => .error e
      | .ok a =>
        match resetStepM base now Period.month a with
        | .error e => .error e
        | .ok a =>
          if a.2.2 then
            match rsetConfig a.2.1 with
            | .error e => .error e
            | .ok s2 => .ok (a.1, s2)
          else .ok (a.1, a.2.1)

/-- One iteration of the limit-check loop: skip non-positive limits, read
the counter (fallibly), record the wait time of a saturated window. -/
def gatherWaitM (base : String) (now : DateTime) (cfg : Config) (p : Period)
    (a : List Int × RState) : Except Unit (List Int × RState) :=
  if 0 < cfg.limits p then
    match rget a.2 (countKey base p) with
    | .error e => .error e
    | .ok v =>
        if cfg.limits p ≤ v.getD 0 ∧ 0 < waitMicros p now then
          .ok (a.1 ++ [waitMicros p now], a.2)
        else .ok a
  else .ok a

/-- The buffered `INCR` of one window, applied at `pipeline.execute()`. -/
def condIncrM (cfg : Config) (base : String) (p : Period) (s : RState) :
    Except Unit RState :=
  if 0 < cfg.limits p then rincr s (countKey base p) else .ok s

/-- The executed pipeline: conditional window increments then the
unconditional lifetime-total increment. -/
def pipelineM (base : String) (cfg : Config) (s : RState) :
    Except Unit RState :=
  match condIncrM cfg base Period.minute s with
  | .error e => .error e
  | .ok s =>
    match condIncrM cfg base Period.hour s with
    | .error e => .error e
    | .ok s =>
      match condIncrM cfg base Period.day s with
      | .error e => .error e
      | .ok s =>
        match condIncrM cfg base Period.month s with
        | .error e => .error e
        | .ok s => rincr s (totalKey base)

/-- Embedding of `_atomic_check_and_increment` with fallible store operations (the
probabilistic `_sync_to_db_async` call catches all its exceptions and
touches no counter, so it is invisible here). -/
def atomicCheckAndIncrementM (base : String) (cfg : Config) (s : RState)
    (now : DateTime) : Except Unit (Bool × Int × Config × RState) :=
  match checkAndResetCountersM base now cfg s with
  | .error e => .error e
  | .ok cs =>
    match gatherWaitM base now cs.1 Period.minute ([], cs.2) with
    | .error e => .error e
    | .ok a =>
      match gatherWaitM base now cs.1 Period.hour a with
      | .error e => .error e
      | .ok a =>
        match gatherWaitM base now cs.1 Period.day a with
        | .error e => .error e
        | .ok a =>
          match gatherWaitM base now cs.1 Period.month a with
          | .error e => .error e
          | .ok a =>
            match a.1.max? with
            | some m => .ok (false, m, cs.1, a.2)
            | none =>
              match pipelineM base cs.1 a.2 with
              | .error e => .error e
              | .ok s2 => .ok (true, 0, cs.1, s2)

/-- Embedding of `RateLimiter.acquire(timeout=None)`: one admission attempt; a grant
returns true, a denial returns false immediately, and — `acquire` having
no exception handler — a store error propagates to the caller. -/
def acquireNoTimeoutM (base : String) (cfg : Config) (s : RState)
    (now : DateTime) : Except Unit Bool :=
  match atomicCheckAndIncrementM base cfg s now with
  | .error e => .error e
  | .ok r => if r.1 then .ok true else .ok false

/-- The counter collection inside `_sync_to_db_async`'s `try:` block. -/
def collectCountsM (base : String) (s : RState) :
    Except Unit (List (String × Int)) :=
  match rget s (countKey base Period.minute) with
  | .error e => .error e
  | .ok vm =>
    match rget s (countKey base Period.hour) with
    | .error e => .error e
    | .ok vh =>
      match rget s (countKey base Period.day) with
      | .error e => .error e
      | .ok vd =>
        match rget s (countKey base Period.month) with
        | .error e => .error e
        | .ok vmo =>
            .ok [("minute", vm.getD 0), ("hour", vh.getD 0),
              ("day", vd.getD 0), ("month", vmo.getD 0)]

/-- Embedding of `_sync_to_db_async`: any exception is caught and logged
(`except Exception`), so the caller sees no error; on success the counts
are handed to the `_save_to_db` background thread. -/
def syncToDbAsyncM (base : String) (s : RState) :
    Option (List (String × Int)) :=
  match collectCountsM base s with
  | .ok counts => some counts
  | .error _ => none

theorem rget_failing {s : RState} (hf : s.failing = true) (k : String) :
    rget s k = .error () := by
  simp [rget, hf]

theorem rincr_failing {s : RState} (hf : s.failing = true) (k : String) :
    rincr s k = .error () := by
  simp [rincr, hf]

theorem rdel_failing {s : RState} (hf : s.failing = true) (k : String) :
    rdel s k = .error () := by
  simp [rdel, hf]

theorem resetStepM_failing (base : String) (now : DateTime) (p : Period)
    (a : Config × RState × Bool) (hf : a.2.1.failing = true) :
    resetStepM base now p a = .error () ∨ resetStepM base now p a = .ok a := by
  unfold resetStepM
  cases a.1.resetTimes p with
  | null => exact Or.inr rfl
  | invalid => exact Or.inr rfl
  | time r =>
      dsimp only
      by_cases hd : nextResetMicros p r ≤ now.toMicros
      · rw [if_pos hd, rdel_failing hf]
        exact Or.inl rfl
      · rw [if_neg hd]
        exact Or.inr rfl

theorem checkAndResetCountersM_failing (base : String) (now : DateTime)
    (cfg : Config) (s : RState) (hf : s.failing = true) :
    checkAndResetCountersM base now cfg s = .error () ∨
      checkAndResetCountersM base now cfg s = .ok (cfg, s) := by
  rcases resetStepM_failing base now Period.minute (cfg, s, false) hf with h1 | h1
  · left
    unfold checkAndResetCountersM
    rw [h1]
  · rcases resetStepM_failing base now Period.hour (cfg, s, false) hf with h2 | h2
    · left
      unfold checkAndResetCountersM
      rw [h1]
      dsimp only
      rw [h2]
    · rcases resetStepM_failing base now Period.day (cfg, s, false) hf with h3 | h3
      · left
        unfold checkAndResetCountersM
        rw [h1]
        dsimp only
        rw [h2]
        dsimp only
        rw [h3]
      · rcases resetStepM_failing base now Period.month (cfg, s, false) hf with h4 | h4
        · left
          unfold checkAndResetCountersM
          rw [h1]
          dsimp only
          rw [h2]
          dsimp only
          rw [h3]
          dsimp only
          rw [h4]
        · right
          unfold checkAndResetCountersM
          rw [h1]
          dsimp only
          rw [h2]
          dsimp only
          rw [h3]
          dsimp only
          rw [h4]
          rfl

theorem gatherWaitM_failing (base : String) (now : DateTime) (cfg : Config)
    (p : Period) (a : List Int × RState) (hf : a.2.failing = true) :
    gatherWaitM base now cfg p a = .error () ∨
      gatherWaitM base now cfg p a = .ok a := by
  unfold gatherWaitM
  by_cases hp : 0 < cfg.limits p
  · rw [if_pos hp, rget_failing hf]
    exact Or.inl rfl
  · rw [if_neg hp]
    exact Or.inr rfl

theorem pipelineM_failing (base : String) (cfg : Config) (s : RState)
    (hf : s.failing = true) : pipelineM base cfg s = .error () := by
  have hcond : ∀ p, condIncrM cfg base p s = .error () ∨
      condIncrM cfg base p s = .ok s := by
    intro p
    unfold condIncrM
    by_cases hp : 0 < cfg.limits p
    · rw [if_pos hp, rincr_failing hf]
      exact Or.inl rfl
    · rw [if_neg hp]
      exact Or.inr rfl
  rcases hcond Period.minute with h1 | h1 <;> unfold pipelineM <;> rw [h1]
  all_goals dsimp only
  rcases hcond Period.hour with h2 | h2 <;> rw [h2]
  all_goals dsimp only
  rcases hcond Period.day with h3 | h3 <;> rw [h3]
  all_goals dsimp only
  rcases hcond Period.month with h4 | h4 <;> rw [h4]
  all_goals dsimp only
  exact rincr_failing hf _

/-- C2 (amended): a backing-store error during the durability sync is
swallowed (`_sync_to_db_async` catches every exception and returns
quietly), but a backing-store error during the admission attempt
propagates out of `acquire` uncaught — the attempt is not converted into a
denial. -/
theorem store_error_sync_swallowed_admission_propagates (base : String)
    (cfg : Config) (s : RState) (now : DateTime) (hf : s.failing = true) :
    acquireNoTimeoutM base cfg s now = .error () ∧
    collectCountsM base s = .error () ∧
    syncToDbAsyncM base s = none := by
  have hcollect : collectCountsM base s = .error () := by
    unfold collectCountsM
    rw [rget_failing hf]
  refine ⟨?_, hcollect, ?_⟩
  · have hatomic : atomicCheckAndIncrementM base cfg s now = .error () := by
      rcases checkAndResetCountersM_failing base now cfg s hf with hc | hc <;>
        unfold atomicCheckAndIncrementM <;> rw [hc]
      dsimp only
      rcases gatherWaitM_failing base now cfg Period.minute ([], s) hf with h1 | h1 <;>
        rw [h1]
      dsimp only
      rcases gatherWaitM_failing base now cfg Period.hour ([], s) hf with h2 | h2 <;>
        rw [h2]
      dsimp only
      rcases gatherWaitM_failing base now cfg Period.day ([], s) hf with h3 | h3 <;>
        rw [h3]
      dsimp only
      rcases gatherWaitM_failing base now cfg Period.month ([], s) hf with h4 | h4 <;>
        rw [h4]
      dsimp only
      rw [pipelineM_failing base cfg s hf]
      rfl
    unfold acquireNoTimeoutM
    rw [hatomic]
  · unfold syncToDbAsyncM
    rw [hcollect]

/-- C2 (counterexample): with the store raising on every operation, an
admission attempt does not return false — the error propagates out of
`acquire` (there is no `try/except` around the admission path). -/
theorem acquire_store_error_counterexample :
    acquireNoTimeoutM "ratelimit:svc" ⟨fun _ => 1, fun _ => ResetEntry.null⟩
        ⟨fun _ => none, true⟩ ⟨2024, 5, 15, 10, 30, 20, 0⟩ =
      Except.error () ∧
    acquireNoTimeoutM "ratelimit:svc" ⟨fun _ => 1, fun _ => ResetEntry.null⟩
        ⟨fun _ => none, true⟩ ⟨2024, 5, 15, 10, 30, 20, 0⟩ ≠
      Except.ok false := by
  refine ⟨rfl, ?_⟩
  intro h
  have h1 : acquireNoTimeoutM "ratelimit:svc"
      ⟨fun _ => 1, fun _ => ResetEntry.null⟩ ⟨fun _ => none, true⟩
      ⟨2024, 5, 15, 10, 30, 20, 0⟩ = Except.error () := rfl
  rw [h1] at h
  exact Except.noConfusion h

theorem store_error_sync_swallowed_admission_propagates_witness :
    acquireNoTimeoutM "ratelimit:svc" ⟨fun _ => 1, fun _ => ResetEntry.null⟩
        ⟨fun _ => some 7, true⟩ ⟨2024, 5, 15, 10, 30, 20, 0⟩ =
      Except.error () ∧
    collectCountsM "ratelimit:svc" ⟨fun _ => some 7, true⟩ =
      Except.error () ∧
    syncToDbAsyncM "ratelimit:svc" ⟨fun _ => some 7, true⟩ = none :=
  store_error_sync_swallowed_admission_propagates "ratelimit:svc"
    ⟨fun _ => 1, fun _ => ResetEntry.null⟩ ⟨fun _ => some 7, true⟩
    ⟨2024, 5, 15, 10, 30, 20, 0⟩ rfl

/-- C10: the durability sync collects only the four window counters, so
`_save_to_db` writes `counts.get('total', 0) = 0` to `total_requests`
regardless of the store's actual lifetime counter. -/
theorem sync_persists_zero_total (base : String) (s : Store) :
    (collectCounts base s).map Prod.fst =
      ["minute", "hour", "day", "month"] ∧
    countsGet (collectCounts base s) "total" 0 = 0 ∧
    (saveToDb (collectCounts base s)).total_requests = 0 := by
  refine ⟨rfl, rfl, rfl⟩

/-- C9: after a successful acquisition, `limit_context` suppresses every
`Exception` raised by the with-body; execution continues as if the body
had succeeded. -/
theorem limit_context_swallows_body_exceptions (timeout : Int) (e : PyExc) :
    limitContext timeout true (Except.error e) = Except.ok () ∧
    limitContext timeout true (Except.error e) =
      limitContext timeout true (Except.ok ()) := by
  exact ⟨rfl, rfl⟩

/-- C8: `release_lock` deletes the lock key and returns true exactly when
the stored value is this holder's token; for any other stored owner (or no
stored lock) it returns false and leaves the store unchanged. -/
theorem release_lock_compare_and_delete (store : LockStore)
    (lockKey ownerId : String) :
    ((releaseLock store lockKey ownerId).1 = true ↔
      store lockKey = some ownerId) ∧
    ((releaseLock store lockKey ownerId).1 = true →
      (releaseLock store lockKey ownerId).2 lockKey = none ∧
      ∀ q, q ≠ lockKey → (releaseLock store lockKey ownerId).2 q = store q) ∧
    ((releaseLock store lockKey ownerId).1 = false →
      (releaseLock store lockKey ownerId).2 = store) ∧
    (∀ other, store lockKey = some other → other ≠ ownerId →
      (releaseLock store lockKey ownerId).1 = false ∧
      (releaseLock store lockKey ownerId).2 = store) := by
  unfold releaseLock
  by_cases h : store lockKey = some ownerId
  · rw [if_pos h]
    refine ⟨by simp [h], fun _ => ⟨by simp, fun q hq => by simp [hq]⟩,
      by simp, ?_⟩
    intro other hother hne
    rw [h] at hother
    exact absurd (Option.some_inj.mp hother.symm) hne
  · rw [if_neg h]
    exact ⟨by simpa using h, by simp, fun _ => rfl, fun _ _ _ => ⟨rfl, rfl⟩⟩

theorem release_lock_compare_and_delete_witness :
    ((releaseLock
        (fun k => if k = "lock.api.svc" then some "owner-b" else none)
        "lock.api.svc" "owner-a").1 = true ↔
      (fun k => if k = "lock.api.svc" then some "owner-b" else none)
        "lock.api.svc" = some "owner-a") ∧
    ((releaseLock
        (fun k => if k = "lock.api.svc" then some "owner-b" else none)
        "lock.api.svc" "owner-a").1 = true →
      (releaseLock
        (fun k => if k = "lock.api.svc" then some "owner-b" else none)
        "lock.api.svc" "owner-a").2 "lock.api.svc" = none ∧
      ∀ q, q ≠ "lock.api.svc" →
        (releaseLock
          (fun k => if k = "lock.api.svc" then some "owner-b" else none)
          "lock.api.svc" "owner-a").2 q =
          (fun k => if k = "lock.api.svc" then some "owner-b" else none) q) ∧
    ((releaseLock
        (fun k => if k = "lock.api.svc" then some "owner-b" else none)
        "lock.api.svc" "owner-a").1 = false →
      (releaseLock
        (fun k => if k = "lock.api.svc" then some "owner-b" else none)
        "lock.api.svc" "owner-a").2 =
        (fun k => if k = "lock.api.svc" then some "owner-b" else none)) ∧
    (∀ other,
      (fun k => if k = "lock.api.svc" then some "owner-b" else none)
        "lock.api.svc" = some other → other ≠ "owner-a" →
      (releaseLock
        (fun k => if k = "lock.api.svc" then some "owner-b" else none)
        "lock.api.svc" "owner-a").1 = false ∧
      (releaseLock
        (fun k => if k = "lock.api.svc" then some "owner-b" else none)
        "lock.api.svc" "owner-a").2 =
        (fun k => if k = "lock.api.svc" then some "owner-b" else none)) :=
  release_lock_compare_and_delete
    (fun k => if k = "lock.api.svc" then some "owner-b" else none)
    "lock.api.svc" "owner-a"

/-- C3 (counterexample): on `["a","bb","ccc"]` with `max_length = 10` and
an empty fixed prefix the greedy rule admits all three ids into one batch
(`0+2+3+4 = 9 ≤ 10`), so the output is not `[["a","bb"],["ccc"]]`. -/
theorem chunker_scenario_counterexample :
    generateSafeChunks ["a", "bb", "ccc"] 10 0 = [["a", "bb", "ccc"]] ∧
    generateSafeChunks ["a", "bb", "ccc"] 10 0 ≠ [["a", "bb"], ["ccc"]] := by
  refine ⟨by decide, by decide⟩

/-- C3 (amended): under the greedy accumulation rule, the chunker on
`["a","bb","ccc"]` with `max_length = 10` and an empty fixed prefix yields
exactly the single batch `[["a","bb","ccc"]]`, since
`0 + (1+1) + (2+1) + (3+1) = 9 ≤ 10`. -/
theorem chunker_scenario_amended :
    generateSafeChunks ["a", "bb", "ccc"] 10 0 = [["a", "bb", "ccc"]] ∧
    0 + ("a".length + 1) + ("bb".length + 1) + ("ccc".length + 1) ≤ 10 := by
  refine ⟨by decide, by decide⟩

/-- C6: every batch the chunker generates satisfies
`fixed_prefix_length + sum(len(id)+1) ≤ max_length`, except a one-id batch
whose lone id already exceeds the bound, which is still emitted. -/
theorem chunker_batches_bounded (ids : List String)
    (maxLength prefixLen : Nat) :
    ∀ b ∈ generateSafeChunks ids maxLength prefixLen,
      prefixLen + chunkWeight b ≤ maxLength ∨
        ∃ i, b = [i] ∧ maxLength < prefixLen + (i.length + 1) :=
  chunksLoop_length_invariant maxLength prefixLen ids [] prefixLen
    (by simp [chunkWeight]) (Or.inl rfl)

theorem chunker_batches_bounded_witness :
    (2 + chunkWeight ["ab"] ≤ 6 ∨
      ∃ i, (["ab"] : List String) = [i] ∧ 6 < 2 + (i.length + 1)) ∧
    (2 + chunkWeight ["0123456789"] ≤ 6 ∨
      ∃ i, (["0123456789"] : List String) = [i] ∧
        6 < 2 + (i.length + 1)) := by
  refine ⟨?_, ?_⟩
  · exact chunker_batches_bounded ["ab", "0123456789"] 6 2 ["ab"] (by decide)
  · exact chunker_batches_bounded ["ab", "0123456789"] 6 2 ["0123456789"]
      (by decide)

/-- C7: the concatenation of all generated batches is exactly the input
sequence (each id once, order preserved), every emitted batch is
non-empty, and an empty input yields no batches. -/
theorem chunker_concatenation_exact (ids : List String)
    (maxLength prefixLen : Nat) :
    (generateSafeChunks ids maxLength prefixLen).flatten = ids ∧
    (∀ b ∈ generateSafeChunks ids maxLength prefixLen, b ≠ []) ∧
    generateSafeChunks [] maxLength prefixLen = ([] : List (List String)) := by
  refine ⟨?_, ?_, rfl⟩
  · simpa using chunksLoop_join maxLength prefixLen ids [] prefixLen
  · exact fun b hb => chunksLoop_ne_nil maxLength prefixLen ids [] prefixLen b hb

theorem chunker_concatenation_exact_witness :
    (generateSafeChunks ["a", "bb", "ccc", "dddd"] 5 0).flatten =
      ["a", "bb", "ccc", "dddd"] ∧
    (∀ b ∈ generateSafeChunks ["a", "bb", "ccc", "dddd"] 5 0, b ≠ []) ∧
    generateSafeChunks [] 5 0 = ([] : List (List String)) :=
  chunker_concatenation_exact ["a", "bb", "ccc", "dddd"] 5 0
